import Mathlib

/-
Verification of the link-checking core of mdbook-linkcheck (src/lib.rs).

The source text is modelled at the level of characters: chapter content is a
Lean `String`, and byte offsets of the Rust source become character offsets
into `String.data`.  Newlines occupy exactly one position in both views, so
line counting is unaffected.

External collaborators (the pulldown-cmark tokenizer, the url crate's parser,
the reqwest HTTP client, and the unimplemented in-book resolver) are modelled
from the spec, as marked on each definition; the functions of src/lib.rs
themselves (`check_links`, `Link::line_number`, `collect_links`, `check_link`,
`validate_external_link`) are translated directly from the source.
-/

namespace MdBookLinkCheck

/-- A chapter of the book: mirrors `mdbook::book::Chapter` restricted to the
fields this crate reads (`name`, `content`, `path`). -/
structure Chapter where
  name : String
  content : String
  path : String
deriving DecidableEq

/-- An item of the book tree: mirrors `mdbook::book::BookItem`. -/
inductive BookItem where
  | chapter : Chapter → BookItem
  | separator : BookItem
deriving DecidableEq

/-- The book, as the sequence of items produced by `book.iter()` (the only way
`check_links` consumes the book: a flat depth-first iteration). -/
abbrev Book := List BookItem

/-- Mirrors the `Config` struct of src/lib.rs: one recognized option. -/
structure Config where
  follow_web_links : Bool
deriving DecidableEq

/-- Mirrors the `Link` struct of src/lib.rs: a raw destination string, the
offset of the link within the owning chapter's content, and the back
reference to the chapter. -/
structure Link where
  url : String
  offset : Nat
  chapter : Chapter
deriving DecidableEq

/-- Method `Link::line_number` of src/lib.rs.  The source panics when
`offset > content.len()`; the panic branch is modelled as `none`.  Otherwise
it counts newline bytes in `content[..offset]` (via `Memchr`) and adds 1. -/
def Link.line_number (l : Link) : Option Nat :=
  let content := l.chapter.content.data
  if l.offset > content.length then
    none
  else
    some ((content.take l.offset).countP (fun c => c = '\n') + 1)

/-- Split a list at the first occurrence of `c`: returns the elements before
the first `c`, the elements after it, and the number of elements consumed
(the prefix plus the delimiter itself). -/
def splitAtChar (c : Char) : List Char → Option (List Char × List Char × Nat)
  | [] => none
  | x :: xs =>
    if x = c then some ([], xs, 1)
    else
      match splitAtChar c xs with
      | some (pre, post, n) => some (x :: pre, post, n + 1)
      | none => none

/-- Modelled from the spec: one structural event of the pulldown-cmark token
stream, restricted to the events `collect_links` reacts to — a link-start or
image-start carrying its destination and the parser offset at the moment the
event is produced (the position just after the opening bracket, which is what
`parser.get_offset()` reports there). -/
structure MdEvent where
  isImage : Bool
  dest : String
  offset : Nat
deriving DecidableEq

/-- Modelled from the spec: recognition of one inline link body — the
characters following an opening bracket.  Succeeds when the input has the
shape `text]` `(dest)`, returning the destination, the remaining input after
the closing parenthesis, and the number of characters consumed.  Malformed
markup yields `none` (the tokenizer emits no event for that span). -/
def parseLinkBody (body : List Char) : Option (String × List Char × Nat) :=
  match splitAtChar ']' body with
  | none => none
  | some (_, afterText, n1) =>
    match afterText with
    | [] => none
    | a :: afterParen =>
      if a = '(' then
        match splitAtChar ')' afterParen with
        | none => none
        | some (dest, rest, n2) => some (⟨dest⟩, rest, n1 + 1 + n2)
      else none

/-- Fuelled scanner behind `parseEvents`; every step consumes at least one
character of the input and one unit of fuel, so fuel equal to the input
length (as supplied by `parseEvents`) never runs out. -/
def parseEventsAux : Nat → List Char → Nat → List MdEvent
  | 0, _, _ => []
  | _ + 1, [], _ => []
  | fuel + 1, x :: xs, pos =>
    if x = '!' then
      match xs with
      | [] => parseEventsAux fuel xs (pos + 1)
      | y :: body =>
        if y = '[' then
          match parseLinkBody body with
          | some (dest, rest, n) =>
            ⟨true, dest, pos + 2⟩ :: parseEventsAux fuel rest (pos + 2 + n)
          | none => parseEventsAux fuel xs (pos + 1)
        else parseEventsAux fuel xs (pos + 1)
    else if x = '[' then
      match parseLinkBody xs with
      | some (dest, rest, n) =>
        ⟨false, dest, pos + 1⟩ :: parseEventsAux fuel rest (pos + 1 + n)
      | none => parseEventsAux fuel xs (pos + 1)
    else
      parseEventsAux fuel xs (pos + 1)

/-- Modelled from the spec: the pulldown-cmark tokenizer (an external crate)
as the stream of link-start and image-start events it produces for a chapter
body, scanning left to right from position `pos`.  A well-formed
`[text]` `(dest)` starting at position p emits a link event with offset p + 1
(the parser position just after the opening bracket); `![text]` `(dest)`
emits an image event with offset p + 2; scanning resumes after the construct.
Markup that does not form a link emits no event and scanning moves one
character ahead. -/
def parseEvents (l : List Char) (pos : Nat) : List MdEvent :=
  parseEventsAux l.length l pos

/-- Function `collect_links` of src/lib.rs: drive the tokenizer over the chapter's
content and record, for every link-start or image-start event, the
destination string, the parser offset at that event, and the back reference
to the chapter, in stream order. -/
def collect_links (ch : Chapter) : List Link :=
  (parseEvents ch.content.data 0).map fun e =>
    { url := e.dest, offset := e.offset, chapter := ch }

/-- Modelled from the spec: a parsed absolute URL, the output of the external
url crate's parser — a scheme plus the remainder of the string. -/
structure Url where
  scheme : String
  rest : String
deriving DecidableEq

/-- Characters allowed after the first character of a URL scheme. -/
def isSchemeChar (c : Char) : Bool :=
  c.isAlphanum || c = '+' || c = '-' || c = '.'

/-- Modelled from the spec: `Url::parse` of the external url crate, as strict
URL parsing per the standard URL grammar — success exactly when the string
begins with a syntactically valid scheme (an ASCII letter followed by
letters, digits, `+`, `-` or `.`) terminated by a colon; everything after the
colon is kept as the remainder.  Any other string fails to parse. -/
def urlParse (s : String) : Option Url :=
  match splitAtChar ':' s.data with
  | none => none
  | some ([], _, _) => none
  | some (c :: cs, rest, _) =>
    if c.isAlpha && cs.all isSchemeChar then some ⟨⟨c :: cs⟩, ⟨rest⟩⟩
    else none

/-- Modelled from the spec: the two-way classification of §4.3 — a
destination is either an absolute external URL or a book-internal
reference.  The source has no named type for this; `check_link` branches
directly on the parse result. -/
inductive Classification where
  | external : Url → Classification
  | internal : String → Classification
deriving DecidableEq

/-- Modelled from the spec: `classify(url_string)` of §4.3 — strict URL
parse success is `external` with the parsed URL, parse failure is
`internal` with the raw string. -/
def classify (s : String) : Classification :=
  match urlParse s with
  | some u => .external u
  | none => .internal s

/-- The per-link failure causes, as a tagged variant: a network-level fetch
error (the `reqwest::get(url)?` propagation path), `UnsuccessfulStatus` of
src/lib.rs, and the resolver's not-found report. -/
inductive CheckError where
  | networkError : Url → String → CheckError
  | unsuccessfulStatus : Nat → CheckError
  | notFound : String → CheckError
deriving DecidableEq

/-- Type `BrokenLinks` of src/lib.rs: the ordered sequence of per-link failures. -/
structure BrokenLinks where
  errors : List CheckError
deriving DecidableEq

/-- The HTTP fetch oracle, standing for the external reqwest client: for each
URL either a network-level error description or a response status code. -/
abbrev Fetcher := Url → Except String Nat

/-- Method `StatusCode::is_success` of the external http crate: the 2xx class. -/
def isSuccessStatus (status : Nat) : Bool :=
  200 ≤ status && status < 300

/-- Function `validate_external_link` of src/lib.rs.  Alongside the result it returns
the list of URLs fetched from the network during the call, so that absence
of network access is expressible.  When `follow_web_links` is set it fetches
the URL once: a fetch error propagates (the `?` operator), a 2xx status is
`Ok`, anything else is `UnsuccessfulStatus`.  Otherwise it returns `Ok`
without fetching. -/
def validate_external_link (fetch : Fetcher) (url : Url) (cfg : Config) :
    Except CheckError Unit × List Url :=
  if cfg.follow_web_links then
    match fetch url with
    | .error e => (.error (.networkError url e), [url])
    | .ok status =>
      if isSuccessStatus status then (.ok (), [url])
      else (.error (.unsuccessfulStatus status), [url])
  else
    (.ok (), [])

/-- The fragment-free part of an internal reference: the characters before
the first `#`, if any. -/
def stripFragment (s : String) : String :=
  match splitAtChar '#' s.data with
  | none => s
  | some (pre, _, _) => ⟨pre⟩

/-- Does some chapter of the book have the given path? -/
def bookHasPath (book : Book) (p : String) : Bool :=
  book.any fun item =>
    match item with
    | .chapter ch => ch.path = p
    | .separator => false

/-- Modelled from the spec: `check_link_in_book` is `unimplemented!()` in
src/lib.rs; §4.4 of the spec fixes its contract — interpret the reference as
a book-relative path with an optional fragment, search the chapter tree for
a matching path, and report `NotFound` carrying the unresolved reference
string when no chapter matches; never fatal. -/
def check_link_in_book (link : Link) (book : Book) : Except CheckError Unit :=
  if bookHasPath book (stripFragment link.url) then .ok ()
  else .error (.notFound link.url)

/-- Function `check_link` of src/lib.rs: try strict URL parsing of the destination;
success dispatches to the external validator, failure to the in-book
resolver (which performs no network access). -/
def check_link (fetch : Fetcher) (link : Link) (book : Book) (cfg : Config) :
    Except CheckError Unit × List Url :=
  match urlParse link.url with
  | some url => validate_external_link fetch url cfg
  | none => (check_link_in_book link book, [])

/-- The link-gathering loop of `check_links` in src/lib.rs: iterate the book's
items and extend the link list with each chapter's links; non-chapter items
are skipped. -/
def collectAllLinks : Book → List Link
  | [] => []
  | .chapter ch :: rest => collect_links ch ++ collectAllLinks rest
  | .separator :: rest => collectAllLinks rest

/-- The checking loop of `check_links` in src/lib.rs: check each link in
order, pushing each failure onto the error list; alongside, the URLs fetched
from the network are accumulated. -/
def collectErrors (fetch : Fetcher) (book : Book) (cfg : Config) :
    List Link → List CheckError × List Url
  | [] => ([], [])
  | l :: rest =>
    let r := check_link fetch l book cfg
    let acc := collectErrors fetch book cfg rest
    match r.1 with
    | .ok _ => (acc.1, r.2 ++ acc.2)
    | .error e => (e :: acc.1, r.2 ++ acc.2)

/-- Function `check_links` of src/lib.rs, after the out-of-scope configuration
deserialization: gather the links of every chapter, check each one
accumulating failures, and return `Ok` when no failures occurred, otherwise
`BrokenLinks` with the accumulated list.  (The source guards the checking
loop with `!links.is_empty()`; an empty iteration is identical.)  The second
component is the list of URLs fetched from the network during the run. -/
def check_links (fetch : Fetcher) (book : Book) (cfg : Config) :
    Except BrokenLinks Unit × List Url :=
  let links := collectAllLinks book
  let r := collectErrors fetch book cfg links
  (if r.1 = [] then .ok () else .error ⟨r.1⟩, r.2)

/-- The error carried by a per-link result, if any. -/
def resultError : Except CheckError Unit → Option CheckError
  | .ok _ => none
  | .error e => some e

/-- Did a per-link check fail? -/
def isFailure : Except CheckError Unit → Bool
  | .ok _ => false
  | .error _ => true

/-- A fetch oracle answering status 200 to every request. -/
def fetchAll200 : Fetcher := fun _ => .ok 200

/-- A fetch oracle answering status 404 to every request. -/
def fetchAll404 : Fetcher := fun _ => .ok 404

/-- A fetch oracle failing every request with a connection error. -/
def fetchRefused : Fetcher := fun _ => .error "connection refused"

/-- A sample parsed URL. -/
def sampleUrl : Url := ⟨"https", "//example.com"⟩

theorem splitAtChar_length (c : Char) :
    ∀ (l pre post : List Char) (n : Nat),
      splitAtChar c l = some (pre, post, n) →
      l.length = n + post.length ∧ 1 ≤ n := by
  intro l
  induction l with
  | nil => intro pre post n h; simp [splitAtChar] at h
  | cons x xs ih =>
    intro pre post n h
    by_cases hx : x = c
    · simp [splitAtChar, hx] at h
      obtain ⟨hpre, hpost, hn⟩ := h
      subst hpost; subst hn
      constructor
      · simp; omega
      · omega
    · simp [splitAtChar, hx] at h
      cases hs : splitAtChar c xs with
      | none => rw [hs] at h; simp at h
      | some v =>
        obtain ⟨pre2, post2, n2⟩ := v
        rw [hs] at h
        simp at h
        obtain ⟨hpre, hpost, hn⟩ := h
        obtain ⟨h1, h2⟩ := ih pre2 post2 n2 hs
        subst hpost; subst hn
        constructor
        · simp [List.length_cons, h1]; omega
        · omega

theorem parseLinkBody_length (body : List Char) (dest : String)
    (rest : List Char) (n : Nat) (h : parseLinkBody body = some (dest, rest, n)) :
    body.length = n + rest.length ∧ 1 ≤ n := by
  unfold parseLinkBody at h
  cases h1 : splitAtChar ']' body with
  | none => rw [h1] at h; simp at h
  | some v1 =>
    obtain ⟨text, afterText, n1⟩ := v1
    rw [h1] at h
    obtain ⟨e1, e2⟩ := splitAtChar_length ']' body text afterText n1 h1
    cases afterText with
    | nil => simp at h
    | cons a as =>
      by_cases ha : a = '('
      · subst ha
        simp at h
        cases h2 : splitAtChar ')' as with
        | none => rw [h2] at h; simp at h
        | some v2 =>
          obtain ⟨dest2, rest2, n2⟩ := v2
          rw [h2] at h
          simp at h
          obtain ⟨hd, hr, hn⟩ := h
          obtain ⟨f1, f2⟩ := splitAtChar_length ')' as dest2 rest2 n2 h2
          subst hr; subst hn
          simp only [List.length_cons] at e1
          omega
      · simp [ha] at h

theorem parseEventsAux_offset_bounds :
    ∀ (fuel : Nat) (l : List Char) (pos : Nat),
      ∀ e ∈ parseEventsAux fuel l pos, pos < e.offset ∧ e.offset ≤ pos + l.length := by
  intro fuel
  induction fuel with
  | zero => intro l pos e he; simp [parseEventsAux] at he
  | succ fuel ih =>
    intro l pos e he
    cases l with
    | nil => simp [parseEventsAux] at he
    | cons x xs =>
      simp only [parseEventsAux] at he
      by_cases hx : x = '!'
      · subst hx
        rw [if_pos rfl] at he
        cases xs with
        | nil =>
          obtain ⟨g1, g2⟩ := ih [] (pos + 1) e he
          simp only [List.length_nil, List.length_cons] at g2 ⊢
          omega
        | cons y body =>
          dsimp only at he
          by_cases hy : y = '['
          · subst hy
            rw [if_pos rfl] at he
            cases hp : parseLinkBody body with
            | some v =>
              obtain ⟨dest, rest, n⟩ := v
              rw [hp] at he
              obtain ⟨e1, e2⟩ := parseLinkBody_length body dest rest n hp
              rcases List.mem_cons.mp he with rfl | hmem
              · simp only [List.length_cons]
                constructor
                · omega
                · omega
              · obtain ⟨g1, g2⟩ := ih rest (pos + 2 + n) e hmem
                simp only [List.length_cons]
                constructor
                · omega
                · omega
            | none =>
              rw [hp] at he
              obtain ⟨g1, g2⟩ := ih ('[' :: body) (pos + 1) e he
              simp only [List.length_cons] at g2 ⊢
              omega
          · rw [if_neg hy] at he
            obtain ⟨g1, g2⟩ := ih (y :: body) (pos + 1) e he
            simp only [List.length_cons] at g2 ⊢
            omega
      · rw [if_neg hx] at he
        by_cases hx2 : x = '['
        · subst hx2
          rw [if_pos rfl] at he
          cases hp : parseLinkBody xs with
          | some v =>
            obtain ⟨dest, rest, n⟩ := v
            rw [hp] at he
            obtain ⟨e1, e2⟩ := parseLinkBody_length xs dest rest n hp
            rcases List.mem_cons.mp he with rfl | hmem
            · simp only [List.length_cons]
              constructor
              · omega
              · omega
            · obtain ⟨g1, g2⟩ := ih rest (pos + 1 + n) e hmem
              simp only [List.length_cons]
              constructor
              · omega
              · omega
          | none =>
            rw [hp] at he
            obtain ⟨g1, g2⟩ := ih xs (pos + 1) e he
            simp only [List.length_cons] at g2 ⊢
            omega
        · rw [if_neg hx2] at he
          obtain ⟨g1, g2⟩ := ih xs (pos + 1) e he
          simp only [List.length_cons] at g2 ⊢
          omega

theorem parseEventsAux_offsets_increasing :
    ∀ (fuel : Nat) (l : List Char) (pos : Nat),
      (parseEventsAux fuel l pos).Pairwise fun a b => a.offset < b.offset := by
  intro fuel
  induction fuel with
  | zero => intro l pos; simp [parseEventsAux]
  | succ fuel ih =>
    intro l pos
    cases l with
    | nil => simp [parseEventsAux]
    | cons x xs =>
      simp only [parseEventsAux]
      by_cases hx : x = '!'
      · subst hx
        rw [if_pos rfl]
        cases xs with
        | nil => exact ih [] (pos + 1)
        | cons y body =>
          dsimp only
          by_cases hy : y = '['
          · subst hy
            rw [if_pos rfl]
            cases hp : parseLinkBody body with
            | some v =>
              obtain ⟨dest, rest, n⟩ := v
              refine List.Pairwise.cons ?_ (ih rest (pos + 2 + n))
              intro e he
              obtain ⟨g1, g2⟩ := parseEventsAux_offset_bounds fuel rest (pos + 2 + n) e he
              simp only
              omega
            | none => exact ih ('[' :: body) (pos + 1)
          · rw [if_neg hy]
            exact ih (y :: body) (pos + 1)
      · rw [if_neg hx]
        by_cases hx2 : x = '['
        · subst hx2
          rw [if_pos rfl]
          cases hp : parseLinkBody xs with
          | some v =>
            obtain ⟨dest, rest, n⟩ := v
            refine List.Pairwise.cons ?_ (ih rest (pos + 1 + n))
            intro e he
            obtain ⟨g1, g2⟩ := parseEventsAux_offset_bounds fuel rest (pos + 1 + n) e he
            simp only
            omega
          | none => exact ih xs (pos + 1)
        · rw [if_neg hx2]
          exact ih xs (pos + 1)

theorem countP_take_mono (p : Char → Bool) :
    ∀ (l : List Char) (m n : Nat), m ≤ n →
      (l.take m).countP p ≤ (l.take n).countP p := by
  intro l
  induction l with
  | nil => intro m n _; simp
  | cons x xs ih =>
    intro m n hmn
    cases m with
    | zero => simp
    | succ m2 =>
      cases n with
      | zero => omega
      | succ n2 =>
        simp only [List.take_succ_cons, List.countP_cons]
        have := ih m2 n2 (by omega)
        by_cases hp : p x <;> simp [hp] <;> omega

theorem collectErrors_fst_filterMap (fetch : Fetcher) (book : Book) (cfg : Config) :
    ∀ ls : List Link,
      (collectErrors fetch book cfg ls).1 =
        ls.filterMap fun l => resultError (check_link fetch l book cfg).1 := by
  intro ls
  induction ls with
  | nil => simp [collectErrors]
  | cons l rest ih =>
    simp only [collectErrors, List.filterMap_cons]
    cases hr : (check_link fetch l book cfg).1 with
    | ok u => simp [hr, resultError, ih]
    | error e => simp [hr, resultError, ih]

theorem filterMap_resultError_length (f : Link → Except CheckError Unit) :
    ∀ ls : List Link,
      (ls.filterMap fun l => resultError (f l)).length =
        ls.countP fun l => isFailure (f l) := by
  intro ls
  induction ls with
  | nil => simp
  | cons l rest ih =>
    simp only [List.filterMap_cons, List.countP_cons]
    cases hr : f l with
    | ok u =>
      simp only [resultError, isFailure]
      simpa using ih
    | error e =>
      simp only [resultError, isFailure]
      simpa using ih

theorem collectErrors_fst_append (fetch : Fetcher) (book : Book) (cfg : Config) :
    ∀ ls ls' : List Link,
      (collectErrors fetch book cfg (ls ++ ls')).1 =
        (collectErrors fetch book cfg ls).1 ++ (collectErrors fetch book cfg ls').1 := by
  intro ls ls'
  induction ls with
  | nil => simp [collectErrors]
  | cons l rest ih =>
    simp only [List.cons_append, collectErrors]
    cases hr : (check_link fetch l book cfg).1 with
    | ok u => simpa [hr] using ih
    | error e => simpa [hr] using ih

theorem bookHasPath_erase_separator (l r : Book) (p : String) :
    bookHasPath (l ++ BookItem.separator :: r) p = bookHasPath (l ++ r) p := by
  simp [bookHasPath, List.any_append]

theorem check_link_erase_separator (fetch : Fetcher) (link : Link)
    (l r : Book) (cfg : Config) :
    check_link fetch link (l ++ BookItem.separator :: r) cfg =
      check_link fetch link (l ++ r) cfg := by
  unfold check_link
  cases urlParse link.url with
  | some u => rfl
  | none =>
    unfold check_link_in_book
    rw [bookHasPath_erase_separator]

theorem collectErrors_congr (fetch : Fetcher) (b1 b2 : Book) (cfg : Config)
    (hcl : ∀ link, check_link fetch link b1 cfg = check_link fetch link b2 cfg) :
    ∀ ls : List Link, collectErrors fetch b1 cfg ls = collectErrors fetch b2 cfg ls := by
  intro ls
  induction ls with
  | nil => rfl
  | cons l rest ih => simp only [collectErrors, hcl l, ih]

theorem collectAllLinks_erase_separator (l r : Book) :
    collectAllLinks (l ++ BookItem.separator :: r) = collectAllLinks (l ++ r) := by
  induction l with
  | nil => simp [collectAllLinks]
  | cons i rest ih =>
    cases i with
    | chapter ch => simp [collectAllLinks, ih]
    | separator => simp [collectAllLinks, ih]

/-- Claim C9: for a chapter whose content is
`[Reference other chapter](index.html) and [Google](https://google.com)`,
`collect_links` yields exactly two links — url `index.html` at offset 1
followed by url `https://google.com` at offset 43 — in that order. -/
theorem find_links_in_chapter_scenario :
    collect_links
        ⟨"Foo",
         "[Reference other chapter](index.html) and [Google](https://google.com)",
         "index.md"⟩ =
      [⟨"index.html", 1,
        ⟨"Foo",
         "[Reference other chapter](index.html) and [Google](https://google.com)",
         "index.md"⟩⟩,
       ⟨"https://google.com", 43,
        ⟨"Foo",
         "[Reference other chapter](index.html) and [Google](https://google.com)",
         "index.md"⟩⟩] := by
  decide

/-- Claim C5: for every external URL and every fetch oracle, when
`follow_web_links` is false, `validate_external_link` returns `Ok` and the
list of network accesses performed is empty. -/
theorem validate_external_no_follow (fetch : Fetcher) (url : Url) :
    validate_external_link fetch url ⟨false⟩ = (Except.ok (), []) := by
  rfl

/-- Claim C2: for every buffer and every offset within it, `line_number`
returns the number of newline characters before the offset plus one; at
offset 0 it returns 1; and it is monotonically non-decreasing in the offset
over the same buffer. -/
theorem line_number_counts_newlines (url : String) (ch : Chapter) (o o2 : Nat)
    (h1 : o ≤ o2) (h2 : o2 ≤ ch.content.data.length) :
    Link.line_number ⟨url, o, ch⟩ =
      some ((ch.content.data.take o).countP (fun c => c = '\n') + 1)
    ∧ Link.line_number ⟨url, 0, ch⟩ = some 1
    ∧ (∀ m m2, Link.line_number ⟨url, o, ch⟩ = some m →
        Link.line_number ⟨url, o2, ch⟩ = some m2 → m ≤ m2) := by
  have hlen : ch.content.length = ch.content.data.length := rfl
  have ho : ¬ (o > ch.content.length) := by omega
  have ho2 : ¬ (o2 > ch.content.length) := by omega
  refine ⟨?_, ?_, ?_⟩
  · simp [Link.line_number, ho]
  · simp [Link.line_number]
  · intro m m2 hm hm2
    simp [Link.line_number, ho] at hm
    simp [Link.line_number, ho2] at hm2
    have := countP_take_mono (fun c => c = '\n') ch.content.data o o2 h1
    omega

/-- Concrete instance of `line_number_counts_newlines`: the offset 4 inside
`ab` newline `cd` lies on line 2. -/
theorem line_number_counts_newlines_witness :
    Link.line_number ⟨"x", 4, ⟨"n", "ab\ncd", "p"⟩⟩ = some 2 := by
  have h :=
    (line_number_counts_newlines "x" ⟨"n", "ab\ncd", "p"⟩ 4 5 (by decide) (by decide)).1
  rw [h]
  decide

/-- Claim C3: every link produced by `collect_links` satisfies the invariant
`offset ≤ len(chapter.content)`, under which the fatal branch of
`line_number` cannot fire (the result is `some`); an offset beyond the
buffer hits the fatal branch (`none`, the modelled panic) rather than any
recoverable per-link failure value. -/
theorem collect_links_offset_invariant (ch : Chapter) (link : Link)
    (hmem : link ∈ collect_links ch) (bad : Link)
    (hbad : bad.chapter.content.data.length < bad.offset) :
    (link.offset ≤ ch.content.data.length ∧ (Link.line_number link).isSome = true)
    ∧ Link.line_number bad = none := by
  constructor
  · obtain ⟨e, he, hf⟩ := List.mem_map.mp hmem
    obtain ⟨g1, g2⟩ :=
      parseEventsAux_offset_bounds ch.content.data.length ch.content.data 0 e he
    subst hf
    have hle : e.offset ≤ ch.content.data.length := by omega
    have hno : ¬ (e.offset > ch.content.length) := by
      have : ch.content.length = ch.content.data.length := rfl
      omega
    constructor
    · exact hle
    · simp [Link.line_number, hno]
  · have hbad2 : bad.chapter.content.length < bad.offset := by
      have : bad.chapter.content.length = bad.chapter.content.data.length := rfl
      omega
    simp [Link.line_number, hbad2]

/-- Concrete instance of `collect_links_offset_invariant`. -/
theorem collect_links_offset_invariant_witness :
    ((Link.mk "b" 1 ⟨"Foo", "[a](b)", "p"⟩).offset ≤ ("[a](b)" : String).data.length
      ∧ (Link.line_number ⟨"b", 1, ⟨"Foo", "[a](b)", "p"⟩⟩).isSome = true)
    ∧ Link.line_number ⟨"x", 5, ⟨"n", "ab", "p"⟩⟩ = none :=
  collect_links_offset_invariant ⟨"Foo", "[a](b)", "p"⟩ ⟨"b", 1, ⟨"Foo", "[a](b)", "p"⟩⟩
    (by decide) ⟨"x", 5, ⟨"n", "ab", "p"⟩⟩ (by decide)

/-- Claim C7: `collect_links` returns the discovered link and image
destinations in strictly increasing offset order — their left-to-right order
of appearance in the content — and a chapter with empty content yields no
links.  (It is a plain total function: no I/O, no failure.) -/
theorem collect_links_ordered (ch : Chapter) :
    (collect_links ch).Pairwise (fun a b => a.offset < b.offset)
    ∧ (ch.content = "" → collect_links ch = []) := by
  constructor
  · unfold collect_links
    rw [List.pairwise_map]
    exact parseEventsAux_offsets_increasing _ _ _
  · intro h
    unfold collect_links parseEvents
    rw [h, show ("" : String).data = [] from rfl]
    rfl

/-- Concrete instance of `collect_links_ordered`: empty content, no links. -/
theorem collect_links_ordered_witness :
    collect_links ⟨"Foo", "", "p"⟩ = [] :=
  (collect_links_ordered ⟨"Foo", "", "p"⟩).2 rfl

/-- Claim C4: classification of a destination is total and deterministic —
every string yields exactly one of the two variants (external on strict URL
parse success, internal on parse failure), never an error of its own — and
`check_link` dispatches to the external validator or the in-book resolver
exactly per that classification. -/
theorem classify_total_deterministic (s : String) (fetch : Fetcher)
    (link : Link) (book : Book) (cfg : Config) :
    ((∃ u, urlParse s = some u ∧ classify s = Classification.external u)
      ∨ (urlParse s = none ∧ classify s = Classification.internal s))
    ∧ ¬ ((∃ u, classify s = Classification.external u)
          ∧ classify s = Classification.internal s)
    ∧ classify s = classify s
    ∧ check_link fetch link book cfg =
        (match classify link.url with
         | Classification.external u => validate_external_link fetch u cfg
         | Classification.internal _ => (check_link_in_book link book, [])) := by
  refine ⟨?_, ?_, rfl, ?_⟩
  · cases hp : urlParse s with
    | some u => exact Or.inl ⟨u, rfl, by simp [classify, hp]⟩
    | none => exact Or.inr ⟨rfl, by simp [classify, hp]⟩
  · rintro ⟨⟨u, hu⟩, hi⟩
    rw [hu] at hi
    simp at hi
  · unfold check_link classify
    cases urlParse link.url <;> rfl

/-- Claim C8: resolving an internal reference returns `Ok` or `NotFound`
carrying the unresolved reference string — never any other outcome — and
failures are collected per-link without aborting the checking of subsequent
links (error accumulation distributes over list concatenation). -/
theorem check_link_in_book_ok_or_not_found (link : Link) (book : Book)
    (fetch : Fetcher) (cfg : Config) (ls ls2 : List Link) :
    (check_link_in_book link book = Except.ok ()
      ∨ check_link_in_book link book = Except.error (CheckError.notFound link.url))
    ∧ (collectErrors fetch book cfg (ls ++ ls2)).1 =
        (collectErrors fetch book cfg ls).1 ++ (collectErrors fetch book cfg ls2).1 := by
  constructor
  · unfold check_link_in_book
    by_cases h : bookHasPath book (stripFragment link.url) = true <;> simp [h]
  · exact collectErrors_fst_append fetch book cfg ls ls2

theorem collectAllLinks_of_all_separators :
    ∀ b : Book, (∀ i ∈ b, i = BookItem.separator) → collectAllLinks b = [] := by
  intro b
  induction b with
  | nil => intro _; rfl
  | cons i rest ih =>
    intro h
    have hi := h i (List.mem_cons_self i rest)
    subst hi
    simp only [collectAllLinks]
    exact ih fun j hj => h j (List.mem_cons_of_mem _ hj)

/-- Claim C1: `check_links` validates every discovered link without
short-circuiting: it fails with `BrokenLinks` holding exactly the failures
of the failing links in discovery order, succeeds exactly when that list is
empty, and the number of error entries equals the number of failing links. -/
theorem check_links_accumulates_all_failures (fetch : Fetcher) (book : Book)
    (cfg : Config) :
    (check_links fetch book cfg).1 =
      (if ((collectAllLinks book).filterMap
            fun l => resultError (check_link fetch l book cfg).1) = []
       then Except.ok ()
       else Except.error
         ⟨(collectAllLinks book).filterMap
            fun l => resultError (check_link fetch l book cfg).1⟩)
    ∧ ((collectAllLinks book).filterMap
          fun l => resultError (check_link fetch l book cfg).1).length
        = (collectAllLinks book).countP
            fun l => isFailure (check_link fetch l book cfg).1 := by
  constructor
  · simp only [check_links]
    rw [collectErrors_fst_filterMap]
  · exact filterMap_resultError_length (fun l => (check_link fetch l book cfg).1) _

/-- Claim C6: with `follow_web_links` set, `validate_external_link` performs
exactly one fetch of the URL; it succeeds exactly when the response status
is in the 2xx class; a non-2xx status yields `UnsuccessfulStatus` carrying
the observed code; a network-level fetch error yields a `networkError`
failure, a kind distinct from the wrong-status failure; no outcome is
swallowed. -/
theorem validate_external_follow (fetch : Fetcher) (url : Url) :
    (validate_external_link fetch url ⟨true⟩).2 = [url]
    ∧ ((validate_external_link fetch url ⟨true⟩).1 = Except.ok ()
        ↔ ∃ s, fetch url = Except.ok s ∧ 200 ≤ s ∧ s < 300)
    ∧ (∀ s, fetch url = Except.ok s → ¬ (200 ≤ s ∧ s < 300) →
        (validate_external_link fetch url ⟨true⟩).1 =
          Except.error (CheckError.unsuccessfulStatus s))
    ∧ (∀ e, fetch url = Except.error e →
        (validate_external_link fetch url ⟨true⟩).1 =
          Except.error (CheckError.networkError url e))
    ∧ (∀ u e s, CheckError.networkError u e ≠ CheckError.unsuccessfulStatus s) := by
  refine ⟨?_, ?_, ?_, ?_, ?_⟩
  · cases hf : fetch url with
    | error e => simp [validate_external_link, hf]
    | ok s =>
      by_cases hs : isSuccessStatus s = true <;>
        simp [validate_external_link, hf, hs]
  · cases hf : fetch url with
    | error e => simp [validate_external_link, hf]
    | ok s =>
      by_cases hs : isSuccessStatus s = true
      · simp [validate_external_link, hf, hs]
        simp [isSuccessStatus] at hs
        omega
      · simp [validate_external_link, hf, hs]
        simp [isSuccessStatus] at hs
        omega
  · intro s hf hns
    have hs : isSuccessStatus s = false := by
      simp [isSuccessStatus]
      omega
    simp [validate_external_link, hf, hs]
  · intro e hf
    simp [validate_external_link, hf]
  · intro u e s h
    exact CheckError.noConfusion h

/-- Concrete instances of `validate_external_follow`: a 404 response is a
status failure, a refused connection is a network failure. -/
theorem validate_external_follow_witness :
    (validate_external_link fetchAll404 sampleUrl ⟨true⟩).1 =
      Except.error (CheckError.unsuccessfulStatus 404)
    ∧ (validate_external_link fetchRefused sampleUrl ⟨true⟩).1 =
      Except.error (CheckError.networkError sampleUrl "connection refused") :=
  ⟨(validate_external_follow fetchAll404 sampleUrl).2.2.1 404 rfl (by omega),
   (validate_external_follow fetchRefused sampleUrl).2.2.2.1 "connection refused" rfl⟩

/-- Claim C10: `check_links` draws links only from chapter items — a
separator anywhere in the book changes nothing, a book whose links are
empty (no chapters, or chapters without links) yields `Ok` with no network
access, and in particular so does a book consisting only of separators. -/
theorem check_links_chapters_only (fetch : Fetcher) (cfg : Config)
    (l r book : Book) :
    check_links fetch (l ++ BookItem.separator :: r) cfg =
        check_links fetch (l ++ r) cfg
    ∧ (collectAllLinks book = [] → check_links fetch book cfg = (Except.ok (), []))
    ∧ ((∀ i ∈ book, i = BookItem.separator) →
        check_links fetch book cfg = (Except.ok (), [])) := by
  have hempty : collectAllLinks book = [] →
      check_links fetch book cfg = (Except.ok (), []) := by
    intro h
    simp [check_links, h, collectErrors]
  refine ⟨?_, hempty, ?_⟩
  · have hb : ∀ ls, collectErrors fetch (l ++ BookItem.separator :: r) cfg ls =
        collectErrors fetch (l ++ r) cfg ls :=
      collectErrors_congr fetch _ _ cfg
        (fun link => check_link_erase_separator fetch link l r cfg)
    simp only [check_links, collectAllLinks_erase_separator, hb]
  · intro h
    exact hempty (collectAllLinks_of_all_separators book h)

/-- Concrete instances of `check_links_chapters_only`: a lone separator and
an empty book both yield `Ok` with no fetches. -/
theorem check_links_chapters_only_witness :
    check_links fetchAll200 [BookItem.separator] ⟨true⟩ = (Except.ok (), [])
    ∧ check_links fetchAll200 [] ⟨true⟩ = (Except.ok (), []) :=
  ⟨(check_links_chapters_only fetchAll200 ⟨true⟩ [] [] [BookItem.separator]).2.2
      (by intro i hi; simpa using hi),
   (check_links_chapters_only fetchAll200 ⟨true⟩ [] [] []).2.1 rfl⟩
